import Mathlib

/-!
Verification of the Navis hex telemetry decoder and historical aggregation
logic from `navis_historical_parser.py` (functions `decode_navis_hex`,
`parse_navis_historical_data`, `calculate_statistics`).

Modelling conventions:
* Python strings are `List Char` (a `String` wrapper is provided at the
  entry points); lengths and slices match Python character slicing.
* Python's arbitrary-precision `int` is `Int`.  For a positive divisor,
  Python's `//` (and `>>` by `k` bits, which is `// 2^k`) is floor
  division, and Python's `%` (and `x & (2^k - 1)`, which is `x % 2^k`)
  returns a non-negative remainder; for positive divisors both agree
  with Lean's Euclidean `Int./` and `Int.%`, which we therefore use.
* Python floats are modelled as exact rationals `ℚ`; every claim below
  concerns values (quotients of small integers) on which the two agree.
* `int(s, 16)` is modelled for ASCII inputs: optional surrounding
  whitespace, an optional sign, an optional `0x`/`0X` base marker with an
  optional single underscore after it, then hex digits separated by
  optional single underscores.
-/

namespace Navis

/-- Hexadecimal value of an ASCII character, `none` when the character is
not one of `0-9`, `a-f`, `A-F`. -/
def hexVal (c : Char) : Option Nat :=
  if 48 ≤ c.toNat ∧ c.toNat ≤ 57 then some (c.toNat - 48)
  else if 97 ≤ c.toNat ∧ c.toNat ≤ 102 then some (c.toNat - 87)
  else if 65 ≤ c.toNat ∧ c.toNat ≤ 70 then some (c.toNat - 55)
  else none

/-- `c` is one of the hexadecimal digits `0-9`, `a-f`, `A-F`. -/
def isHexDigit (c : Char) : Bool :=
  (hexVal c).isSome

/-- ASCII whitespace as stripped by CPython around an integer literal. -/
def isPySpace (c : Char) : Bool :=
  c.toNat == 32 || c.toNat == 9 || c.toNat == 10 || c.toNat == 13 ||
    c.toNat == 11 || c.toNat == 12

/-- Hex digit value with default 0; only used on genuine hex digits. -/
def hexDigit (c : Char) : Nat :=
  (hexVal c).getD 0

/-- One step of big-endian hex accumulation. -/
def hexStep (a : Nat) (c : Char) : Nat :=
  16 * a + hexDigit c

/-- The numeric value of a string of hex digits (most significant first). -/
def hexNatVal (l : List Char) : Nat :=
  l.foldl hexStep 0

/-- Digits of a base-16 CPython literal after the first digit: hex digits
with single underscores allowed between digits. -/
def parseDigitsAux : List Char → Nat → Option Nat
  | [], acc => some acc
  | c :: rest, acc =>
    if c = '_' then
      match rest with
      | [] => none
      | c2 :: rest2 =>
        match hexVal c2 with
        | some v => parseDigitsAux rest2 (16 * acc + v)
        | none => none
    else
      match hexVal c with
      | some v => parseDigitsAux rest (16 * acc + v)
      | none => none

/-- A non-empty run of hex digits with single underscores between them. -/
def parseHexDigits (l : List Char) : Option Nat :=
  match l with
  | [] => none
  | c :: rest =>
    match hexVal c with
    | some v => parseDigitsAux rest v
    | none => none

/-- The unsigned part of a CPython base-16 literal: an optional `0x`/`0X`
marker (with an optional single underscore after it) followed by digits. -/
def parseUnsigned (l : List Char) : Option Nat :=
  match l with
  | c0 :: x :: rest =>
    if c0 = '0' ∧ (x = 'x' ∨ x = 'X') then
      match rest with
      | [] => none
      | c2 :: rest2 => if c2 = '_' then parseHexDigits rest2 else parseHexDigits rest
    else parseHexDigits (c0 :: x :: rest)
  | _ => parseHexDigits l

/-- Strip leading and trailing ASCII whitespace. -/
def stripSpaces (l : List Char) : List Char :=
  ((l.dropWhile isPySpace).reverse.dropWhile isPySpace).reverse

/-- Model of CPython `int(s, 16)` on ASCII strings: strip whitespace, an
optional sign, then the unsigned literal.  Returns `none` where CPython
raises `ValueError`. -/
def pyIntHex (l : List Char) : Option Int :=
  if stripSpaces l = [] then none
  else if (stripSpaces l).head? = some '+' then
    (parseUnsigned (stripSpaces l).tail).map Int.ofNat
  else if (stripSpaces l).head? = some '-' then
    (parseUnsigned (stripSpaces l).tail).map (fun n => -(Int.ofNat n))
  else (parseUnsigned (stripSpaces l)).map Int.ofNat

/-! Basic facts about the character classes. -/

theorem hexVal_isSome_elim (c : Char) (h : isHexDigit c = true) :
    (48 ≤ c.toNat ∧ c.toNat ≤ 57) ∨ (97 ≤ c.toNat ∧ c.toNat ≤ 102) ∨
      (65 ≤ c.toNat ∧ c.toNat ≤ 70) := by
  unfold isHexDigit hexVal at h
  split_ifs at h with h1 h2 h3
  · exact Or.inl h1
  · exact Or.inr (Or.inl h2)
  · exact Or.inr (Or.inr h3)
  · simp at h

theorem ne_of_isHexDigit (c d : Char) (h : isHexDigit c = true)
    (hd : isHexDigit d = false) : c ≠ d := by
  intro he
  rw [he, hd] at h
  exact Bool.noConfusion h

theorem isPySpace_eq_false_of_hex (c : Char) (h : isHexDigit c = true) :
    isPySpace c = false := by
  rcases hexVal_isSome_elim c h with h' | h' | h' <;>
    · simp only [isPySpace, Bool.or_eq_false_iff, beq_eq_false_iff_ne]
      omega

theorem dropWhile_of_none (p : Char → Bool) (l : List Char)
    (h : ∀ c ∈ l, p c = false) : l.dropWhile p = l := by
  cases l with
  | nil => rfl
  | cons c rest =>
    rw [List.dropWhile_cons, h c (List.mem_cons_self c rest)]
    simp

theorem stripSpaces_of_hex (l : List Char)
    (hhex : ∀ c ∈ l, isHexDigit c = true) : stripSpaces l = l := by
  unfold stripSpaces
  rw [dropWhile_of_none _ l (fun c hc => isPySpace_eq_false_of_hex c (hhex c hc))]
  rw [dropWhile_of_none _ l.reverse
    (fun c hc => isPySpace_eq_false_of_hex c (hhex c (List.mem_reverse.mp hc)))]
  exact List.reverse_reverse l

theorem parseDigitsAux_all_hex (l : List Char) (acc : Nat)
    (hhex : ∀ c ∈ l, isHexDigit c = true) :
    parseDigitsAux l acc = some (l.foldl hexStep acc) := by
  induction l generalizing acc with
  | nil => rfl
  | cons c rest ih =>
    have hc : isHexDigit c = true := hhex c (List.mem_cons_self c rest)
    have hne : c ≠ '_' := ne_of_isHexDigit c '_' hc (by decide)
    obtain ⟨v, hv⟩ : ∃ v, hexVal c = some v := Option.isSome_iff_exists.mp hc
    have hd : hexDigit c = v := by simp [hexDigit, hv]
    rw [parseDigitsAux.eq_def]
    simp only [if_neg hne, hv]
    rw [ih _ (fun d hdm => hhex d (List.mem_cons_of_mem _ hdm))]
    have hstep : hexStep acc c = 16 * acc + v := by simp [hexStep, hd]
    rw [List.foldl_cons, hstep]

theorem parseHexDigits_all_hex (l : List Char) (hne : l ≠ [])
    (hhex : ∀ c ∈ l, isHexDigit c = true) :
    parseHexDigits l = some (hexNatVal l) := by
  cases l with
  | nil => exact absurd rfl hne
  | cons c rest =>
    have hc : isHexDigit c = true := hhex c (List.mem_cons_self c rest)
    obtain ⟨v, hv⟩ : ∃ v, hexVal c = some v := Option.isSome_iff_exists.mp hc
    have hd : hexDigit c = v := by simp [hexDigit, hv]
    simp only [parseHexDigits, hv]
    rw [parseDigitsAux_all_hex rest v (fun d hdm => hhex d (List.mem_cons_of_mem _ hdm))]
    have hstep : hexStep 0 c = v := by simp [hexStep, hd]
    unfold hexNatVal
    rw [List.foldl_cons, hstep]

theorem parseUnsigned_all_hex (l : List Char)
    (hhex : ∀ c ∈ l, isHexDigit c = true) :
    parseUnsigned l = parseHexDigits l := by
  cases l with
  | nil => rfl
  | cons c0 t =>
    cases t with
    | nil => rfl
    | cons x rest =>
      have hx : isHexDigit x = true := by
        exact hhex x (List.mem_cons_of_mem _ (List.mem_cons_self x rest))
      have h1 : x ≠ 'x' := ne_of_isHexDigit x 'x' hx (by decide)
      have h2 : x ≠ 'X' := ne_of_isHexDigit x 'X' hx (by decide)
      have hcond : ¬(c0 = '0' ∧ (x = 'x' ∨ x = 'X')) := by
        rintro ⟨-, hx' | hx'⟩
        · exact h1 hx'
        · exact h2 hx'
      simp only [parseUnsigned, if_neg hcond]

theorem pyIntHex_all_hex (l : List Char) (hne : l ≠ [])
    (hhex : ∀ c ∈ l, isHexDigit c = true) :
    pyIntHex l = some ((hexNatVal l : ℕ) : ℤ) := by
  have hs : stripSpaces l = l := stripSpaces_of_hex l hhex
  unfold pyIntHex
  rw [hs]
  cases l with
  | nil => exact absurd rfl hne
  | cons c rest =>
    have hc : isHexDigit c = true := hhex c (List.mem_cons_self c rest)
    have h1 : c ≠ '+' := ne_of_isHexDigit c '+' hc (by decide)
    have h2 : c ≠ '-' := ne_of_isHexDigit c '-' hc (by decide)
    rw [if_neg (by simp : ¬(c :: rest = []))]
    rw [if_neg (by simp [h1] : ¬((c :: rest).head? = some '+'))]
    rw [if_neg (by simp [h2] : ¬((c :: rest).head? = some '-'))]
    rw [parseUnsigned_all_hex _ hhex,
      parseHexDigits_all_hex _ (by simp) hhex]
    rfl

/-! ### The telemetry decoder, `decode_navis_hex` -/

/-- Fixed conversion constant `1.94384449` from m/s to knots. -/
def knotsPerMs : ℚ :=
  194384449 / 100000000

/-- The result dictionary of a successful decode. -/
structure DecodedReading where
  speed_knots : ℚ
  speed_ms : ℚ
  direction : ℤ
  temperature : ℚ
  rssi : ℤ
deriving DecidableEq

/-- Field extraction of `decode_navis_hex` from the high word `msb` and the
low word `lsb`.  Python `x >> k` is `x / 2 ^ k` (floor division) and
`x & (2 ^ k - 1)` is `x % 2 ^ k` (non-negative remainder), which for the
positive divisors used here coincide with `Int./` and `Int.%`. -/
def mkReading (msb lsb : Int) : DecodedReading :=
  { speed_knots := ((lsb / 65536 : ℤ) : ℚ) / 10 * knotsPerMs
    speed_ms := ((lsb / 65536 : ℤ) : ℚ) / 10
    direction := lsb / 128 % 512
    temperature := (((msb % 2048 : ℤ) : ℚ) - 400) / 10
    rssi := lsb % 128 }

/-- `decode_navis_hex` on a list of characters: reject inputs shorter than
8 characters, parse all but the last 8 characters as the high word (0 when
the length is exactly 8), parse the last 8 characters as the low word, and
build the reading; any parse failure yields `none` (the `DecodeError`). -/
def decodeNavisHex (hex_data : List Char) : Option DecodedReading :=
  if hex_data.length < 8 then none
  else
    (if 8 < hex_data.length then pyIntHex (hex_data.take (hex_data.length - 8))
     else some 0).bind fun msb =>
      (pyIntHex (hex_data.drop (hex_data.length - 8))).map fun lsb =>
        mkReading msb lsb

/-- `decode_navis_hex` on a Python string. -/
def decode_navis_hex (hex_data : String) : Option DecodedReading :=
  decodeNavisHex hex_data.toList

/-- The high word: the value of all characters except the last 8, or 0 when
the length is exactly 8. -/
def highWord (l : List Char) : Nat :=
  if 8 < l.length then hexNatVal (l.take (l.length - 8)) else 0

/-- The low word: the value of the last 8 characters. -/
def lowWord (l : List Char) : Nat :=
  hexNatVal (l.drop (l.length - 8))

/-- `mkReading` applied to natural-number words, with the integer shifts
and masks pushed down to natural-number division and remainder. -/
theorem mkReading_natCast (hW lW : ℕ) :
    mkReading (hW : ℤ) (lW : ℤ) =
      { speed_knots := ((lW / 65536 : ℕ) : ℚ) / 10 * knotsPerMs
        speed_ms := ((lW / 65536 : ℕ) : ℚ) / 10
        direction := ((lW / 128 % 512 : ℕ) : ℤ)
        temperature := (((hW % 2048 : ℕ) : ℚ) - 400) / 10
        rssi := ((lW % 128 : ℕ) : ℤ) } := by
  unfold mkReading
  have e1 : (lW : ℤ) / 65536 = ((lW / 65536 : ℕ) : ℤ) := by omega
  have e2 : (lW : ℤ) / 128 % 512 = ((lW / 128 % 512 : ℕ) : ℤ) := by omega
  have e3 : (hW : ℤ) % 2048 = ((hW % 2048 : ℕ) : ℤ) := by omega
  have e4 : (lW : ℤ) % 128 = ((lW % 128 : ℕ) : ℤ) := by omega
  rw [e1, e2, e3, e4]
  simp only [Int.cast_natCast]

/-- On an all-hex input of length at least 8, the decoder succeeds and its
fields are the stated functions of the high and low words. -/
theorem decodeNavisHex_all_hex (l : List Char) (h8 : 8 ≤ l.length)
    (hhex : ∀ c ∈ l, isHexDigit c = true) :
    decodeNavisHex l = some
      { speed_knots := ((lowWord l / 65536 : ℕ) : ℚ) / 10 * knotsPerMs
        speed_ms := ((lowWord l / 65536 : ℕ) : ℚ) / 10
        direction := ((lowWord l / 128 % 512 : ℕ) : ℤ)
        temperature := (((highWord l % 2048 : ℕ) : ℚ) - 400) / 10
        rssi := ((lowWord l % 128 : ℕ) : ℤ) } := by
  unfold decodeNavisHex
  rw [if_neg (by omega)]
  have hdropne : l.drop (l.length - 8) ≠ [] := by
    have hlen : (l.drop (l.length - 8)).length = 8 := by
      rw [List.length_drop]; omega
    intro he
    rw [he] at hlen
    simp at hlen
  have hlsb : pyIntHex (l.drop (l.length - 8)) = some ((lowWord l : ℕ) : ℤ) :=
    pyIntHex_all_hex _ hdropne (fun c hc => hhex c (List.drop_subset _ l hc))
  by_cases hgt : 8 < l.length
  · have htakene : l.take (l.length - 8) ≠ [] := by
      have hlen : (l.take (l.length - 8)).length = l.length - 8 := by
        rw [List.length_take]; omega
      intro he
      rw [he] at hlen
      simp at hlen
      omega
    have hHW : highWord l = hexNatVal (l.take (l.length - 8)) := by
      unfold highWord; rw [if_pos hgt]
    have hmsb : pyIntHex (l.take (l.length - 8)) = some ((highWord l : ℕ) : ℤ) := by
      rw [hHW]
      exact pyIntHex_all_hex _ htakene (fun c hc => hhex c (List.take_subset _ l hc))
    rw [if_pos hgt, hmsb, hlsb, Option.some_bind, Option.map_some', mkReading_natCast]
  · have hHW : highWord l = 0 := by unfold highWord; rw [if_neg hgt]
    have h0 : (0 : ℤ) = ((0 : ℕ) : ℤ) := by norm_cast
    rw [if_neg hgt, Option.some_bind, hlsb, Option.map_some', h0, mkReading_natCast, hHW]

/-! ### Batch parsing, `parse_navis_historical_data` -/

/-- Python `c in s` for a single character. -/
def hasChar (l : List Char) (c : Char) : Bool :=
  match l with
  | [] => false
  | d :: rest => if d = c then true else hasChar rest c

/-- Python `s.split(sep, 1)` when `sep` occurs: the parts before and after
the first occurrence; `none` when `sep` does not occur (where the source's
two-variable unpacking of the one-element split raises `ValueError`). -/
def splitOnce (sep : Char) : List Char → Option (List Char × List Char)
  | [] => none
  | c :: rest =>
    if c = sep then some ([], rest)
    else
      match splitOnce sep rest with
      | some (a, b) => some (c :: a, b)
      | none => none

/-- Python `s.split(sep)` for a one-character separator (keeps empties). -/
def splitChar (sep : Char) : List Char → List (List Char)
  | [] => [[]]
  | c :: rest =>
    if c = sep then [] :: splitChar sep rest
    else
      match splitChar sep rest with
      | [] => [[c]]
      | a :: as => (c :: a) :: as

/-- The part of a segment after the leading `timestamp,` prefix when a comma
is present, the whole segment otherwise (the fallback `[]` is unreachable:
it is only consulted when the segment contains a comma). -/
def afterComma (seg : List Char) : List Char :=
  if hasChar seg ',' then
    match splitOnce ',' seg with
    | some (_, rest) => rest
    | none => []
  else seg

/-- One loop iteration of the source's segment processing: skip blank
segments and segments without `:`, split off the `interval:` field and
decode the hex payload; `Except.error` models the uncaught `ValueError`
raised when the part after the first comma contains no `:`. -/
def processSegment (seg : List Char) : Except Unit (Option DecodedReading) :=
  if seg.all isPySpace then Except.ok none
  else if hasChar seg ':' then
    match splitOnce ':' (afterComma seg) with
    | some (_, hex_data) => Except.ok (decodeNavisHex hex_data)
    | none => Except.error ()
  else Except.ok none

/-- A segment on which the source raises: it contains both `:` and `,`, but
no `:` occurs after the first `,`. -/
def segCrash (seg : List Char) : Bool :=
  hasChar seg ':' && hasChar seg ',' && !(hasChar (afterComma seg) ':')

/-- The reading (if any) a non-crashing segment contributes. -/
def segReading (seg : List Char) : Option DecodedReading :=
  match processSegment seg with
  | Except.ok r => r
  | Except.error _ => none

/-- The segment loop of `parse_navis_historical_data`: collect decoded
readings in order, propagating the uncaught error. -/
def parseSegments : List (List Char) → Except Unit (List DecodedReading)
  | [] => Except.ok []
  | seg :: rest =>
    match processSegment seg with
    | Except.error e => Except.error e
    | Except.ok r? =>
      match parseSegments rest with
      | Except.error e => Except.error e
      | Except.ok ds =>
        match r? with
        | some d => Except.ok (d :: ds)
        | none => Except.ok ds

/-- `parse_navis_historical_data`: split the raw batch on `|` and process
each segment. -/
def parse_navis_historical_data (raw : String) : Except Unit (List DecodedReading) :=
  parseSegments (splitChar '|' raw.toList)

theorem splitOnce_eq_none_iff (sep : Char) (l : List Char) :
    splitOnce sep l = none ↔ hasChar l sep = false := by
  induction l with
  | nil => simp [splitOnce, hasChar]
  | cons c rest ih =>
    rw [splitOnce.eq_def, hasChar.eq_def]
    by_cases hc : c = sep
    · simp [hc]
    · simp only [if_neg hc]
      cases h : splitOnce sep rest with
      | none => simp [h, ih.mp h]
      | some p =>
        have hh : hasChar rest sep = true := by
          cases hhc : hasChar rest sep with
          | false => rw [ih.mpr hhc] at h; exact Option.noConfusion h
          | true => rfl
        simp [h, hh]

theorem processSegment_ok (seg : List Char) (h : segCrash seg = false) :
    processSegment seg = Except.ok (segReading seg) := by
  unfold segReading
  cases hps : processSegment seg with
  | ok r => rfl
  | error e =>
    exfalso
    unfold processSegment at hps
    split_ifs at hps with h1 h2
    cases hsp : splitOnce ':' (afterComma seg) with
    | some p =>
      obtain ⟨a, b⟩ := p
      simp only [hsp] at hps
      exact Except.noConfusion hps
    | none =>
      have hnc : hasChar (afterComma seg) ':' = false :=
        (splitOnce_eq_none_iff _ _).mp hsp
      by_cases hcm : hasChar seg ',' = true
      · have hcrash : segCrash seg = true := by
          simp [segCrash, h2, hcm, hnc]
        rw [h] at hcrash
        exact Bool.noConfusion hcrash
      · have hac : afterComma seg = seg := by
          unfold afterComma
          rw [if_neg hcm]
        rw [hac, h2] at hnc
        exact Bool.noConfusion hnc

theorem parseSegments_ok (segs : List (List Char))
    (h : ∀ seg ∈ segs, segCrash seg = false) :
    parseSegments segs = Except.ok (segs.filterMap segReading) := by
  induction segs with
  | nil => rfl
  | cons seg rest ih =>
    have h1 := processSegment_ok seg (h seg (List.mem_cons_self seg rest))
    have h2 := ih (fun s hs => h s (List.mem_cons_of_mem _ hs))
    rw [parseSegments.eq_def]
    simp only [h1, h2, List.filterMap_cons]
    cases hr : segReading seg <;> simp [hr]

/-! ### Statistics, `calculate_statistics` -/

/-- Python `statistics.mean` (exact value; Python computes it exactly and
only rounds the final result, so every identity proved here about the
exact mean holds for the source as well). -/
def pyMean (l : List ℚ) : ℚ :=
  l.sum / l.length

/-- Python `max` of a non-empty list.  The value on `[]` is junk: there
Python raises, and every use below is either guarded by a non-emptiness
check or modelled as `StatsResult.error`. -/
def pyMax : List ℚ → ℚ
  | [] => 0
  | x :: xs => xs.foldl max x

/-- Python `min` of a non-empty list; junk on `[]` as for `pyMax`. -/
def pyMin : List ℚ → ℚ
  | [] => 0
  | x :: xs => xs.foldl min x

/-- The statistics dictionary; the two optional keys are present exactly
when their valid subsets are non-empty. -/
structure WindStats where
  avg_speed_knots : ℚ
  avg_speed_ms : ℚ
  peak_speed_knots : ℚ
  peak_speed_ms : ℚ
  min_speed_knots : ℚ
  min_speed_ms : ℚ
  data_points : ℕ
  avg_direction : Option ℚ
  avg_temperature : Option ℚ
deriving DecidableEq

/-- Result of `calculate_statistics`: the `None` return (`noData`), the
statistics dictionary, or an uncaught exception (`error`, reachable only
when the knots list is non-empty but the m/s list is empty). -/
inductive StatsResult where
  | noData
  | error
  | stats (s : WindStats)
deriving DecidableEq

/-- `[dp['speed_knots'] for dp in data_points if dp['speed_knots'] >= 0]`. -/
def speedsKnotsOf (dps : List DecodedReading) : List ℚ :=
  dps.filterMap fun dp => if 0 ≤ dp.speed_knots then some dp.speed_knots else none

/-- `[dp['speed_ms'] for dp in data_points if dp['speed_ms'] >= 0]`. -/
def speedsMsOf (dps : List DecodedReading) : List ℚ :=
  dps.filterMap fun dp => if 0 ≤ dp.speed_ms then some dp.speed_ms else none

/-- `[dp['direction'] for dp in data_points if 0 <= dp['direction'] <= 360]`
(values injected into `ℚ` so that their mean can be taken). -/
def directionsOf (dps : List DecodedReading) : List ℚ :=
  dps.filterMap fun dp =>
    if 0 ≤ dp.direction ∧ dp.direction ≤ 360 then some ((dp.direction : ℤ) : ℚ) else none

/-- `[dp['temperature'] for dp in data_points if -20 <= dp['temperature'] <= 50]`. -/
def tempsOf (dps : List DecodedReading) : List ℚ :=
  dps.filterMap fun dp =>
    if -20 ≤ dp.temperature ∧ dp.temperature ≤ 50 then some dp.temperature else none

/-- `calculate_statistics`: `None` on an empty input or an empty speed-valid
subset, otherwise the statistics over the filtered lists. -/
def calculate_statistics (data_points : List DecodedReading) : StatsResult :=
  if data_points = [] then StatsResult.noData
  else if speedsKnotsOf data_points = [] then StatsResult.noData
  else if speedsMsOf data_points = [] then StatsResult.error
  else StatsResult.stats
    { avg_speed_knots := pyMean (speedsKnotsOf data_points)
      avg_speed_ms := pyMean (speedsMsOf data_points)
      peak_speed_knots := pyMax (speedsKnotsOf data_points)
      peak_speed_ms := pyMax (speedsMsOf data_points)
      min_speed_knots := pyMin (speedsKnotsOf data_points)
      min_speed_ms := pyMin (speedsMsOf data_points)
      data_points := (speedsKnotsOf data_points).length
      avg_direction :=
        if directionsOf data_points = [] then none
        else some (pyMean (directionsOf data_points))
      avg_temperature :=
        if tempsOf data_points = [] then none
        else some (pyMean (tempsOf data_points)) }

/-! Facts about `pyMean`, `pyMax`, `pyMin`. -/

theorem foldl_max_bounds (xs : List ℚ) (a : ℚ) :
    a ≤ xs.foldl max a ∧ ∀ x ∈ xs, x ≤ xs.foldl max a := by
  induction xs generalizing a with
  | nil => exact ⟨le_refl a, by simp⟩
  | cons y ys ih =>
    obtain ⟨h1, h2⟩ := ih (max a y)
    rw [List.foldl_cons]
    refine ⟨le_trans (le_max_left a y) h1, ?_⟩
    intro x hx
    rcases List.mem_cons.mp hx with hx | hx
    · rw [hx]
      exact le_trans (le_max_right a y) h1
    · exact h2 x hx

theorem foldl_min_bounds (xs : List ℚ) (a : ℚ) :
    xs.foldl min a ≤ a ∧ ∀ x ∈ xs, xs.foldl min a ≤ x := by
  induction xs generalizing a with
  | nil => exact ⟨le_refl a, by simp⟩
  | cons y ys ih =>
    obtain ⟨h1, h2⟩ := ih (min a y)
    rw [List.foldl_cons]
    refine ⟨le_trans h1 (min_le_left a y), ?_⟩
    intro x hx
    rcases List.mem_cons.mp hx with hx | hx
    · rw [hx]
      exact le_trans h1 (min_le_right a y)
    · exact h2 x hx

theorem le_pyMax (l : List ℚ) (x : ℚ) (hx : x ∈ l) : x ≤ pyMax l := by
  cases l with
  | nil => cases hx
  | cons a xs =>
    rcases List.mem_cons.mp hx with h | h
    · exact h ▸ (foldl_max_bounds xs a).1
    · exact (foldl_max_bounds xs a).2 x h

theorem pyMin_le (l : List ℚ) (x : ℚ) (hx : x ∈ l) : pyMin l ≤ x := by
  cases l with
  | nil => cases hx
  | cons a xs =>
    rcases List.mem_cons.mp hx with h | h
    · exact h ▸ (foldl_min_bounds xs a).1
    · exact (foldl_min_bounds xs a).2 x h

theorem foldl_max_mem (xs : List ℚ) (a : ℚ) :
    xs.foldl max a = a ∨ xs.foldl max a ∈ xs := by
  induction xs generalizing a with
  | nil => exact Or.inl rfl
  | cons y ys ih =>
    rcases ih (max a y) with h | h
    · rcases max_choice a y with hm | hm
      · exact Or.inl (by rw [List.foldl_cons, h, hm])
      · exact Or.inr (by rw [List.foldl_cons, h, hm]; exact List.mem_cons_self y ys)
    · exact Or.inr (List.mem_cons_of_mem y h)

theorem foldl_min_mem (xs : List ℚ) (a : ℚ) :
    xs.foldl min a = a ∨ xs.foldl min a ∈ xs := by
  induction xs generalizing a with
  | nil => exact Or.inl rfl
  | cons y ys ih =>
    rcases ih (min a y) with h | h
    · rcases min_choice a y with hm | hm
      · exact Or.inl (by rw [List.foldl_cons, h, hm])
      · exact Or.inr (by rw [List.foldl_cons, h, hm]; exact List.mem_cons_self y ys)
    · exact Or.inr (List.mem_cons_of_mem y h)

theorem pyMax_mem (l : List ℚ) (h : l ≠ []) : pyMax l ∈ l := by
  cases l with
  | nil => exact absurd rfl h
  | cons a xs =>
    have hpy : pyMax (a :: xs) = xs.foldl max a := rfl
    rw [hpy]
    rcases foldl_max_mem xs a with h' | h'
    · rw [h']
      exact List.mem_cons_self a xs
    · exact List.mem_cons_of_mem a h'

theorem pyMin_mem (l : List ℚ) (h : l ≠ []) : pyMin l ∈ l := by
  cases l with
  | nil => exact absurd rfl h
  | cons a xs =>
    have hpy : pyMin (a :: xs) = xs.foldl min a := rfl
    rw [hpy]
    rcases foldl_min_mem xs a with h' | h'
    · rw [h']
      exact List.mem_cons_self a xs
    · exact List.mem_cons_of_mem a h'

theorem length_cast_pos (l : List ℚ) (h : l ≠ []) : 0 < (l.length : ℚ) := by
  have := List.length_pos.mpr h
  exact_mod_cast this

theorem pyMean_le_pyMax (l : List ℚ) (h : l ≠ []) : pyMean l ≤ pyMax l := by
  have hlen := length_cast_pos l h
  have hsum : l.sum ≤ pyMax l * l.length := by
    calc l.sum ≤ l.length • pyMax l := List.sum_le_card_nsmul l _ (le_pyMax l)
    _ = pyMax l * l.length := by rw [nsmul_eq_mul, mul_comm]
  rw [pyMean, div_le_iff₀ hlen]
  exact hsum

theorem pyMin_le_pyMean (l : List ℚ) (h : l ≠ []) : pyMin l ≤ pyMean l := by
  have hlen := length_cast_pos l h
  have hsum : pyMin l * l.length ≤ l.sum := by
    calc pyMin l * l.length = l.length • pyMin l := by rw [nsmul_eq_mul, mul_comm]
    _ ≤ l.sum := List.card_nsmul_le_sum l _ (pyMin_le l)
  rw [pyMean, le_div_iff₀ hlen]
  exact hsum

theorem pyMean_const (l : List ℚ) (v : ℚ) (h : l ≠ []) (hc : ∀ x ∈ l, x = v) :
    pyMean l = v := by
  have hlen := length_cast_pos l h
  rw [pyMean, List.sum_eq_card_nsmul l v hc, nsmul_eq_mul]
  field_simp

theorem pyMax_const (l : List ℚ) (v : ℚ) (h : l ≠ []) (hc : ∀ x ∈ l, x = v) :
    pyMax l = v :=
  hc _ (pyMax_mem l h)

theorem pyMin_const (l : List ℚ) (v : ℚ) (h : l ≠ []) (hc : ∀ x ∈ l, x = v) :
    pyMin l = v :=
  hc _ (pyMin_mem l h)

/-! ### Shared evaluation helpers for concrete inputs -/

/-- Evaluation rule for the decoder once both words have been parsed. -/
theorem decodeNavisHex_eval (s : List Char) (m n : ℤ)
    (hlen : ¬ s.length < 8)
    (hmsb : (if 8 < s.length then pyIntHex (s.take (s.length - 8)) else some 0) = some m)
    (hlsb : pyIntHex (s.drop (s.length - 8)) = some n) :
    decodeNavisHex s = some (mkReading m n) := by
  unfold decodeNavisHex
  rw [if_neg hlen, hmsb, hlsb, Option.some_bind, Option.map_some']

/-- A reading whose fields are all zero (temperature 0, in range). -/
def sampleReading : DecodedReading :=
  { speed_knots := 0, speed_ms := 0, direction := 0, temperature := 0, rssi := 0 }

/-- A reading with out-of-range direction (400) and temperature (-40). -/
def sampleBadReading : DecodedReading :=
  { speed_knots := 0, speed_ms := 0, direction := 400, temperature := -40, rssi := 0 }

/-- The statistics of the one-element batch `[sampleReading]`. -/
def sampleStats : WindStats :=
  { avg_speed_knots := 0, avg_speed_ms := 0, peak_speed_knots := 0, peak_speed_ms := 0,
    min_speed_knots := 0, min_speed_ms := 0, data_points := 1,
    avg_direction := some 0, avg_temperature := some 0 }

theorem calculate_statistics_sample :
    calculate_statistics [sampleReading] = StatsResult.stats sampleStats := by
  simp [calculate_statistics, speedsKnotsOf, speedsMsOf, directionsOf, tempsOf,
    pyMean, pyMax, pyMin, sampleReading, sampleStats]

/-! ### Claim C1 -/

/-- Claim C1: for every string of hexadecimal characters of length at least
8, the decoder computes highWord and lowWord as stated (highWord 0 at
length exactly 8) and returns the reading with
speedMetersPerSecond = (lowWord >>> 16) / 10,
speedKnots = speedMetersPerSecond * 1.94384449,
directionDegrees = (lowWord >>> 7) &&& 0x1FF,
temperatureCelsius = ((highWord &&& 0x7FF) - 400) / 10,
signalStrength = lowWord &&& 0x7F. -/
theorem decode_bitfield_layout (l : List Char) (h8 : 8 ≤ l.length)
    (hhex : ∀ c ∈ l, isHexDigit c = true) :
    decodeNavisHex l = some
      { speed_knots := ((lowWord l >>> 16 : ℕ) : ℚ) / 10 * knotsPerMs
        speed_ms := ((lowWord l >>> 16 : ℕ) : ℚ) / 10
        direction := ((lowWord l >>> 7 &&& 0x1FF : ℕ) : ℤ)
        temperature := (((highWord l &&& 0x7FF : ℕ) : ℚ) - 400) / 10
        rssi := ((lowWord l &&& 0x7F : ℕ) : ℤ) } := by
  have e16 : ∀ n : ℕ, n >>> 16 = n / 65536 := fun n => by
    rw [Nat.shiftRight_eq_div_pow]
  have e7 : ∀ n : ℕ, n >>> 7 = n / 128 := fun n => by
    rw [Nat.shiftRight_eq_div_pow]
  have m9 : ∀ n : ℕ, n &&& 511 = n % 512 := fun n => by
    have h := Nat.and_pow_two_sub_one_eq_mod n 9
    norm_num at h
    exact h
  have m11 : ∀ n : ℕ, n &&& 2047 = n % 2048 := fun n => by
    have h := Nat.and_pow_two_sub_one_eq_mod n 11
    norm_num at h
    exact h
  have m7 : ∀ n : ℕ, n &&& 127 = n % 128 := fun n => by
    have h := Nat.and_pow_two_sub_one_eq_mod n 7
    norm_num at h
    exact h
  simp only [e16, e7, m9, m11, m7]
  exact decodeNavisHex_all_hex l h8 hhex

/-- Witness for C1 at the concrete input "0000271000000000". -/
theorem decode_bitfield_layout_witness :
    decodeNavisHex (String.toList "0000271000000000") = some
      { speed_knots := ((lowWord (String.toList "0000271000000000") >>> 16 : ℕ) : ℚ) / 10 * knotsPerMs
        speed_ms := ((lowWord (String.toList "0000271000000000") >>> 16 : ℕ) : ℚ) / 10
        direction := ((lowWord (String.toList "0000271000000000") >>> 7 &&& 0x1FF : ℕ) : ℤ)
        temperature := (((highWord (String.toList "0000271000000000") &&& 0x7FF : ℕ) : ℚ) - 400) / 10
        rssi := ((lowWord (String.toList "0000271000000000") &&& 0x7F : ℕ) : ℤ) } :=
  decode_bitfield_layout _ (by decide) (by decide)

/-! ### Claim C2 -/

/-- Claim C2 as stated is false: the input " 1234567" (a leading space and
seven hex digits) contains a character that is not a hexadecimal digit,
yet the decoder succeeds, because CPython int parsing strips whitespace. -/
theorem decode_error_iff_cx :
    ¬ (decode_navis_hex " 1234567" = none ↔
        ((String.toList " 1234567").length < 8 ∨
          ∃ c ∈ String.toList " 1234567", isHexDigit c = false)) := by
  intro hiff
  have hbad : ∃ c ∈ String.toList " 1234567", isHexDigit c = false := by decide
  have hnone := hiff.mpr (Or.inr hbad)
  have hsome : decode_navis_hex " 1234567" = some (mkReading 0 19088743) :=
    decodeNavisHex_eval _ 0 19088743 (by decide) (by decide) (by decide)
  rw [hsome] at hnone
  exact Option.noConfusion hnone

/-- Claim C2 amended: the decoder fails on every input of length below 8;
it never fails on an input of length at least 8 consisting only of
hexadecimal digits; and every failure implies the input is short or holds
a non-hex character.  The converse of the last part is false: certain
non-hex characters (whitespace, signs, a 0x marker, underscores) are
accepted by the underlying CPython integer parsing, as the counterexample
shows. -/
theorem decode_error_conditions (l : List Char) :
    (l.length < 8 → decodeNavisHex l = none) ∧
    (8 ≤ l.length → (∀ c ∈ l, isHexDigit c = true) → decodeNavisHex l ≠ none) ∧
    (decodeNavisHex l = none → l.length < 8 ∨ ∃ c ∈ l, isHexDigit c = false) := by
  have hok : 8 ≤ l.length → (∀ c ∈ l, isHexDigit c = true) → decodeNavisHex l ≠ none := by
    intro h8 hhex
    rw [decodeNavisHex_all_hex l h8 hhex]
    simp
  refine ⟨?_, hok, ?_⟩
  · intro h
    unfold decodeNavisHex
    rw [if_pos h]
  · intro hnone
    by_cases h8 : l.length < 8
    · exact Or.inl h8
    · refine Or.inr ?_
      by_contra hq
      push_neg at hq
      refine hok (by omega) (fun c hc => ?_) hnone
      exact Bool.ne_false_iff.mp (hq c hc)

/-- Witness for C2: a short input fails, an all-hex input succeeds. -/
theorem decode_error_conditions_witness :
    decodeNavisHex (String.toList "123456") = none ∧
    decodeNavisHex (String.toList "0000000a") ≠ none :=
  ⟨(decode_error_conditions _).1 (by decide),
   (decode_error_conditions _).2.1 (by decide) (by decide)⟩

/-! ### Claim C6 -/

/-- Claim C6 as stated is false: decoding "0000271000000000" does not give
temperature -40, because the high word is 10000 (hex 2710), whose low 11
bits are 1808, hence temperature (1808 - 400) / 10 = 140.8. -/
theorem decode_example_cx :
    decode_navis_hex "0000271000000000" ≠
      some { speed_knots := 0, speed_ms := 0, direction := 0,
             temperature := -40, rssi := 0 } := by
  have hval : decode_navis_hex "0000271000000000" = some (mkReading 10000 0) :=
    decodeNavisHex_eval _ 10000 0 (by decide) (by decide) (by decide)
  intro h
  rw [hval] at h
  simp only [mkReading, Option.some.injEq, DecodedReading.mk.injEq] at h
  obtain ⟨-, -, -, ht, -⟩ := h
  norm_num at ht

/-- Claim C6 amended: decoding "0000271000000000" yields highWord 10000,
rawTemperature 1808, temperatureCelsius 140.8 = 704/5, and zero speed,
direction and signal strength. -/
theorem decode_example_value :
    decode_navis_hex "0000271000000000" = some
      { speed_knots := 0, speed_ms := 0, direction := 0,
        temperature := 704 / 5, rssi := 0 } := by
  have hval : decode_navis_hex "0000271000000000" = some (mkReading 10000 0) :=
    decodeNavisHex_eval _ 10000 0 (by decide) (by decide) (by decide)
  rw [hval]
  simp only [mkReading, Option.some.injEq, DecodedReading.mk.injEq]
  norm_num

/-! ### Claim C7 -/

/-- Claim C7: every successfully decoded reading satisfies
speedKnots = speedMetersPerSecond * 1.94384449 exactly. -/
theorem speed_knots_conversion (l : List Char) (r : DecodedReading)
    (h : decodeNavisHex l = some r) :
    r.speed_knots = r.speed_ms * knotsPerMs := by
  unfold decodeNavisHex at h
  by_cases h1 : l.length < 8
  · rw [if_pos h1] at h
    exact Option.noConfusion h
  · rw [if_neg h1] at h
    cases hm : (if 8 < l.length then pyIntHex (l.take (l.length - 8)) else some 0) with
    | none =>
      rw [hm] at h
      simp at h
    | some m =>
      rw [hm, Option.some_bind] at h
      cases hn : pyIntHex (l.drop (l.length - 8)) with
      | none =>
        rw [hn] at h
        simp at h
      | some n =>
        rw [hn, Option.map_some'] at h
        injection h with h'
        rw [← h']
        rfl

/-- Witness for C7 at the input "000a0000" (speed 1 m/s). -/
theorem speed_knots_conversion_witness :
    (mkReading 0 655360).speed_knots = (mkReading 0 655360).speed_ms * knotsPerMs :=
  speed_knots_conversion (String.toList "000a0000") _
    (decodeNavisHex_eval _ 0 655360 (by decide) (by decide) (by decide))

/-! ### Claim C9 -/

/-- Claim C9: decoding an all-hex input of length at least 8 always
succeeds, and the reading satisfies the invariants: both speeds are
non-negative (so the speed plausibility filter never excludes it),
direction lies in [0, 511], signal strength in [0, 127], and temperature
is at least -40. -/
theorem decode_hex_invariants (l : List Char) (h8 : 8 ≤ l.length)
    (hhex : ∀ c ∈ l, isHexDigit c = true) :
    ∃ r, decodeNavisHex l = some r ∧ 0 ≤ r.speed_ms ∧ 0 ≤ r.speed_knots ∧
      0 ≤ r.direction ∧ r.direction ≤ 511 ∧
      0 ≤ r.rssi ∧ r.rssi ≤ 127 ∧ (-40 : ℚ) ≤ r.temperature := by
  refine ⟨_, decodeNavisHex_all_hex l h8 hhex, ?_, ?_, ?_, ?_, ?_, ?_, ?_⟩
  · show (0 : ℚ) ≤ ((lowWord l / 65536 : ℕ) : ℚ) / 10
    positivity
  · show (0 : ℚ) ≤ ((lowWord l / 65536 : ℕ) : ℚ) / 10 * knotsPerMs
    have hc : (0 : ℚ) ≤ knotsPerMs := by norm_num [knotsPerMs]
    have hs : (0 : ℚ) ≤ ((lowWord l / 65536 : ℕ) : ℚ) / 10 := by positivity
    exact mul_nonneg hs hc
  · show (0 : ℤ) ≤ ((lowWord l / 128 % 512 : ℕ) : ℤ)
    exact_mod_cast Nat.zero_le _
  · show ((lowWord l / 128 % 512 : ℕ) : ℤ) ≤ 511
    have hb : lowWord l / 128 % 512 ≤ 511 := by omega
    exact_mod_cast hb
  · show (0 : ℤ) ≤ ((lowWord l % 128 : ℕ) : ℤ)
    exact_mod_cast Nat.zero_le _
  · show ((lowWord l % 128 : ℕ) : ℤ) ≤ 127
    have hb : lowWord l % 128 ≤ 127 := by omega
    exact_mod_cast hb
  · show (-40 : ℚ) ≤ (((highWord l % 2048 : ℕ) : ℚ) - 400) / 10
    have hb : (0 : ℚ) ≤ ((highWord l % 2048 : ℕ) : ℚ) := Nat.cast_nonneg _
    linarith

/-- Witness for C9 at the all-zero input of length 8. -/
theorem decode_hex_invariants_witness :
    ∃ r, decodeNavisHex (String.toList "00000000") = some r ∧
      0 ≤ r.speed_ms ∧ 0 ≤ r.speed_knots ∧
      0 ≤ r.direction ∧ r.direction ≤ 511 ∧
      0 ≤ r.rssi ∧ r.rssi ≤ 127 ∧ (-40 : ℚ) ≤ r.temperature :=
  decode_hex_invariants _ (by decide) (by decide)

/-! ### Claim C3 -/

/-- Claim C3: whenever the speed-valid subset of the readings is empty
(including the empty batch), aggregation returns the no-data result and
never a statistics object; conversely every produced statistics object has
a strictly positive reading count. -/
theorem stats_nodata_iff (dps : List DecodedReading) :
    (speedsKnotsOf dps = [] → calculate_statistics dps = StatsResult.noData) ∧
    (∀ s, calculate_statistics dps = StatsResult.stats s → 0 < s.data_points) := by
  constructor
  · intro hempty
    unfold calculate_statistics
    by_cases hd : dps = []
    · rw [if_pos hd]
    · rw [if_neg hd, if_pos hempty]
  · intro s hs
    unfold calculate_statistics at hs
    by_cases hd : dps = []
    · rw [if_pos hd] at hs
      exact StatsResult.noConfusion hs
    · rw [if_neg hd] at hs
      by_cases h2 : speedsKnotsOf dps = []
      · rw [if_pos h2] at hs
        exact StatsResult.noConfusion hs
      · rw [if_neg h2] at hs
        by_cases h3 : speedsMsOf dps = []
        · rw [if_pos h3] at hs
          exact StatsResult.noConfusion hs
        · rw [if_neg h3] at hs
          injection hs with hs'
          rw [← hs']
          show 0 < (speedsKnotsOf dps).length
          exact List.length_pos.mpr h2

/-- Witness for C3: the empty batch yields no data; a one-reading batch
yields a statistics object with count 1. -/
theorem stats_nodata_iff_witness :
    calculate_statistics [] = StatsResult.noData ∧ 0 < sampleStats.data_points :=
  ⟨(stats_nodata_iff []).1 rfl,
   (stats_nodata_iff [sampleReading]).2 sampleStats calculate_statistics_sample⟩

/-! ### Claim C5 -/

/-- Claim C5: the plausibility filters act independently per field family.
Appending a reading with non-negative speed to any batch: if its direction
is outside [0, 360] it is excluded from the direction list (hence from the
direction mean), if its temperature is outside [-20, 50] it is excluded
from the temperature list, yet a statistics object is produced in which the
appended speed contributes to the count, mean, peak and minimum. -/
theorem filters_independent (dps : List DecodedReading) (r : DecodedReading)
    (hknots : 0 ≤ r.speed_knots) (hms : 0 ≤ r.speed_ms) :
    (¬(0 ≤ r.direction ∧ r.direction ≤ 360) →
      directionsOf (dps ++ [r]) = directionsOf dps) ∧
    (¬(-20 ≤ r.temperature ∧ r.temperature ≤ 50) →
      tempsOf (dps ++ [r]) = tempsOf dps) ∧
    ∃ s, calculate_statistics (dps ++ [r]) = StatsResult.stats s ∧
      s.data_points = (speedsKnotsOf dps).length + 1 ∧
      s.avg_speed_knots = pyMean (speedsKnotsOf dps ++ [r.speed_knots]) ∧
      s.peak_speed_knots = pyMax (speedsKnotsOf dps ++ [r.speed_knots]) ∧
      s.min_speed_knots = pyMin (speedsKnotsOf dps ++ [r.speed_knots]) := by
  have hk : speedsKnotsOf (dps ++ [r]) = speedsKnotsOf dps ++ [r.speed_knots] := by
    unfold speedsKnotsOf
    rw [List.filterMap_append]
    simp [hknots]
  have hm : speedsMsOf (dps ++ [r]) = speedsMsOf dps ++ [r.speed_ms] := by
    unfold speedsMsOf
    rw [List.filterMap_append]
    simp [hms]
  refine ⟨?_, ?_, ?_⟩
  · intro hdir
    unfold directionsOf
    rw [List.filterMap_append]
    simp [hdir]
  · intro htemp
    unfold tempsOf
    rw [List.filterMap_append]
    simp [htemp]
  · have hd : dps ++ [r] ≠ [] := by simp
    have hne : speedsKnotsOf (dps ++ [r]) ≠ [] := by
      rw [hk]
      simp
    have hneM : speedsMsOf (dps ++ [r]) ≠ [] := by
      rw [hm]
      simp
    have hcalc : calculate_statistics (dps ++ [r]) = StatsResult.stats
        { avg_speed_knots := pyMean (speedsKnotsOf (dps ++ [r]))
          avg_speed_ms := pyMean (speedsMsOf (dps ++ [r]))
          peak_speed_knots := pyMax (speedsKnotsOf (dps ++ [r]))
          peak_speed_ms := pyMax (speedsMsOf (dps ++ [r]))
          min_speed_knots := pyMin (speedsKnotsOf (dps ++ [r]))
          min_speed_ms := pyMin (speedsMsOf (dps ++ [r]))
          data_points := (speedsKnotsOf (dps ++ [r])).length
          avg_direction :=
            if directionsOf (dps ++ [r]) = [] then none
            else some (pyMean (directionsOf (dps ++ [r])))
          avg_temperature :=
            if tempsOf (dps ++ [r]) = [] then none
            else some (pyMean (tempsOf (dps ++ [r]))) } := by
      unfold calculate_statistics
      rw [if_neg hd, if_neg hne, if_neg hneM]
    refine ⟨_, hcalc, ?_, ?_, ?_, ?_⟩
    · show (speedsKnotsOf (dps ++ [r])).length = (speedsKnotsOf dps).length + 1
      rw [hk, List.length_append]
      rfl
    · show pyMean (speedsKnotsOf (dps ++ [r])) = pyMean (speedsKnotsOf dps ++ [r.speed_knots])
      rw [hk]
    · show pyMax (speedsKnotsOf (dps ++ [r])) = pyMax (speedsKnotsOf dps ++ [r.speed_knots])
      rw [hk]
    · show pyMin (speedsKnotsOf (dps ++ [r])) = pyMin (speedsKnotsOf dps ++ [r.speed_knots])
      rw [hk]

/-- Witness for C5: a reading with direction 400 and temperature -40. -/
theorem filters_independent_witness :
    directionsOf ([] ++ [sampleBadReading]) = directionsOf [] ∧
    tempsOf ([] ++ [sampleBadReading]) = tempsOf [] ∧
    ∃ s, calculate_statistics ([] ++ [sampleBadReading]) = StatsResult.stats s ∧
      s.data_points = (speedsKnotsOf []).length + 1 ∧
      s.avg_speed_knots = pyMean (speedsKnotsOf [] ++ [sampleBadReading.speed_knots]) ∧
      s.peak_speed_knots = pyMax (speedsKnotsOf [] ++ [sampleBadReading.speed_knots]) ∧
      s.min_speed_knots = pyMin (speedsKnotsOf [] ++ [sampleBadReading.speed_knots]) := by
  have h := filters_independent [] sampleBadReading (by decide) (by decide)
  exact ⟨h.1 (by decide), h.2.1 (by decide), h.2.2⟩

/-! ### Claim C8 -/

/-- Claim C8: over a batch whose speed-valid readings all carry the same
knots value vK and the same m/s value vM, and whose speed-valid subset is
non-empty, aggregation produces statistics with mean = peak = min = vK in
knots and mean = peak = min = vM in m/s. -/
theorem stats_constant_speed (dps : List DecodedReading) (vK vM : ℚ)
    (hne : speedsKnotsOf dps ≠ []) (hneM : speedsMsOf dps ≠ [])
    (hK : ∀ x ∈ speedsKnotsOf dps, x = vK) (hM : ∀ x ∈ speedsMsOf dps, x = vM) :
    ∃ s, calculate_statistics dps = StatsResult.stats s ∧
      s.avg_speed_knots = vK ∧ s.peak_speed_knots = vK ∧ s.min_speed_knots = vK ∧
      s.avg_speed_ms = vM ∧ s.peak_speed_ms = vM ∧ s.min_speed_ms = vM := by
  have hd : dps ≠ [] := by
    intro h
    rw [h] at hne
    exact hne rfl
  have hcalc : calculate_statistics dps = StatsResult.stats
      { avg_speed_knots := pyMean (speedsKnotsOf dps)
        avg_speed_ms := pyMean (speedsMsOf dps)
        peak_speed_knots := pyMax (speedsKnotsOf dps)
        peak_speed_ms := pyMax (speedsMsOf dps)
        min_speed_knots := pyMin (speedsKnotsOf dps)
        min_speed_ms := pyMin (speedsMsOf dps)
        data_points := (speedsKnotsOf dps).length
        avg_direction :=
          if directionsOf dps = [] then none
          else some (pyMean (directionsOf dps))
        avg_temperature :=
          if tempsOf dps = [] then none
          else some (pyMean (tempsOf dps)) } := by
    unfold calculate_statistics
    rw [if_neg hd, if_neg hne, if_neg hneM]
  exact ⟨_, hcalc, pyMean_const _ _ hne hK, pyMax_const _ _ hne hK, pyMin_const _ _ hne hK,
    pyMean_const _ _ hneM hM, pyMax_const _ _ hneM hM, pyMin_const _ _ hneM hM⟩

/-- Witness for C8: two readings with knots 1 and m/s 2. -/
theorem stats_constant_speed_witness :
    ∃ s, calculate_statistics
        [{ speed_knots := 1, speed_ms := 2, direction := 0, temperature := 0, rssi := 0 },
         { speed_knots := 1, speed_ms := 2, direction := 0, temperature := 0, rssi := 0 }] =
        StatsResult.stats s ∧
      s.avg_speed_knots = 1 ∧ s.peak_speed_knots = 1 ∧ s.min_speed_knots = 1 ∧
      s.avg_speed_ms = 2 ∧ s.peak_speed_ms = 2 ∧ s.min_speed_ms = 2 :=
  stats_constant_speed _ 1 2 (by decide) (by decide) (by decide) (by decide)

/-! ### Claim C10 -/

/-- Claim C10: every produced statistics object has minimum speed at most
mean speed at most peak speed, in knots and in m/s, and its reported count
equals the size of the speed-valid subset of the input readings. -/
theorem stats_order_count (dps : List DecodedReading) (s : WindStats)
    (h : calculate_statistics dps = StatsResult.stats s) :
    s.min_speed_knots ≤ s.avg_speed_knots ∧ s.avg_speed_knots ≤ s.peak_speed_knots ∧
    s.min_speed_ms ≤ s.avg_speed_ms ∧ s.avg_speed_ms ≤ s.peak_speed_ms ∧
    s.data_points = (speedsKnotsOf dps).length := by
  unfold calculate_statistics at h
  by_cases hd : dps = []
  · rw [if_pos hd] at h
    exact StatsResult.noConfusion h
  · rw [if_neg hd] at h
    by_cases h2 : speedsKnotsOf dps = []
    · rw [if_pos h2] at h
      exact StatsResult.noConfusion h
    · rw [if_neg h2] at h
      by_cases h3 : speedsMsOf dps = []
      · rw [if_pos h3] at h
        exact StatsResult.noConfusion h
      · rw [if_neg h3] at h
        injection h with h'
        rw [← h']
        exact ⟨pyMin_le_pyMean _ h2, pyMean_le_pyMax _ h2,
          pyMin_le_pyMean _ h3, pyMean_le_pyMax _ h3, rfl⟩

/-- Witness for C10 on the one-reading batch. -/
theorem stats_order_count_witness :
    sampleStats.min_speed_knots ≤ sampleStats.avg_speed_knots ∧
    sampleStats.avg_speed_knots ≤ sampleStats.peak_speed_knots ∧
    sampleStats.min_speed_ms ≤ sampleStats.avg_speed_ms ∧
    sampleStats.avg_speed_ms ≤ sampleStats.peak_speed_ms ∧
    sampleStats.data_points = (speedsKnotsOf [sampleReading]).length :=
  stats_order_count [sampleReading] sampleStats calculate_statistics_sample

/-! ### Claim C4 -/

/-- Claim C4 as stated is false: the segment "1:2,3" contains both a colon
and a comma but no colon after the first comma, so the unpacking of the
one-element split raises an uncaught ValueError and the whole batch
aborts, even though the other segment is well formed. -/
theorem parse_crash_cx :
    parse_navis_historical_data "1:2,3|1:0000001400000000" = Except.error () := rfl

/-- Claim C4 amended: provided no segment of the batch contains a colon
and a comma with every colon before the first comma, parsing never raises:
segments without a colon are skipped, segments whose payload fails to
decode are excluded, and every well-formed segment contributes its decoded
reading, in order. -/
theorem parse_skip_malformed (raw : String)
    (h : ∀ seg ∈ splitChar '|' raw.toList, segCrash seg = false) :
    parse_navis_historical_data raw =
      Except.ok ((splitChar '|' raw.toList).filterMap segReading) := by
  unfold parse_navis_historical_data
  exact parseSegments_ok _ h

/-- Witness for C4 on the example batch from the specification: the
malformed segment "garbage" is skipped and the well-formed segment still
contributes exactly one reading. -/
theorem parse_skip_malformed_witness :
    parse_navis_historical_data "garbage|1:0000001400000000" =
      Except.ok ((splitChar '|' (String.toList "garbage|1:0000001400000000")).filterMap
        segReading) ∧
    ((splitChar '|' (String.toList "garbage|1:0000001400000000")).filterMap
        segReading).length = 1 :=
  ⟨parse_skip_malformed _ (by decide), by decide⟩

end Navis

